import Mathlib

/-!
Verification of the knowledge-resolution and escalation-lifecycle engine of a
human-in-the-loop AI assistant.  The definitions below are a shallow embedding
of the TypeScript source: the JSON record store becomes explicit lists threaded
through each operation, ISO timestamps become natural numbers (milliseconds),
and the clock / fresh-id generation become explicit parameters.
-/

namespace HITL

/-! ## Data model (src/database/types.ts) -/

inductive HelpRequestStatus where
  | pending
  | resolved
  | timeout
deriving DecidableEq, Repr

structure HelpRequest where
  id : String
  customerPhone : String
  customerName : Option String
  question : String
  context : Option String
  status : HelpRequestStatus
  createdAt : Nat
  resolvedAt : Option Nat
  supervisorAnswer : Option String
  timeoutAt : Nat
deriving DecidableEq, Repr

inductive KnowledgeSource where
  | initial
  | learned
deriving DecidableEq, Repr

structure KnowledgeEntry where
  id : String
  question : String
  answer : String
  category : Option String
  createdAt : Nat
  updatedAt : Nat
  source : KnowledgeSource
deriving DecidableEq, Repr

/-! ## String helpers

All string operations are implemented by structural recursion on the
character list of the string, so that every definition evaluates by kernel
reduction.  `prefixOf pat l` checks that `pat` starts the list `l`;
`occursIn pat l` models JavaScript's `includes` (contiguous-substring
search). -/

def prefixOf : List Char → List Char → Bool
  | [], _ => true
  | _ :: _, [] => false
  | a :: as, b :: bs => if a = b then prefixOf as bs else false

def occursIn (pat : List Char) : List Char → Bool
  | [] => pat.isEmpty
  | c :: rest => prefixOf pat (c :: rest) || occursIn pat rest

/-- JavaScript's `s.includes(t)` is `strIncludes s t`. -/
def strIncludes (s t : String) : Bool :=
  occursIn t.data s.data

/-- JavaScript's `toLowerCase` (ASCII range, which covers all data here). -/
def strLower (s : String) : String :=
  String.mk (s.data.map Char.toLower)

/-- JavaScript's `trim`: strip whitespace from both ends. -/
def strTrim (s : String) : String :=
  String.mk (((s.data.dropWhile Char.isWhitespace).reverse.dropWhile Char.isWhitespace).reverse)

def splitWSAux : List Char → List Char → List String
  | [], acc => [String.mk acc.reverse]
  | c :: rest, acc =>
      if c.isWhitespace then String.mk acc.reverse :: splitWSAux rest []
      else splitWSAux rest (c :: acc)

/-- Splitting on whitespace (`split(/\s+/)`).  A run of whitespace produces
empty tokens here where the regex produces none, but every use filters tokens
by length > 3, which removes empty tokens, so the filtered results agree. -/
def splitWS (s : String) : List String :=
  splitWSAux s.data []

/-- The normalization applied to queries and questions:
`toLowerCase().trim()`. -/
def normalize (s : String) : String :=
  strTrim (strLower s)

/-! ## Knowledge resolver (searchKnowledge in src/database/store.ts) -/

def stopWords : List String :=
  ["the", "are", "your", "what", "where", "how", "can", "do", "does", "is",
   "at", "to", "of", "glamour", "salon"]

def synonyms (w : String) : List String :=
  if w = "price" then ["cost", "pricing", "fee", "charge", "rate"]
  else if w = "cost" then ["price", "pricing", "fee", "charge", "rate"]
  else if w = "pricing" then ["price", "cost", "fee", "charge", "rate"]
  else if w = "color" then ["coloring", "colour", "colouring"]
  else if w = "coloring" then ["color", "colour", "colouring"]
  else if w = "hair" then ["haircut", "hairstyle", "haircutting"]
  else if w = "appointment" then ["booking", "reservation", "schedule"]
  else if w = "booking" then ["appointment", "reservation", "schedule"]
  else if w = "hours" then ["time", "schedule", "open", "closed"]
  else if w = "location" then ["address", "where", "find"]
  else if w = "services" then ["service", "treatments", "offerings"]
  else []

/-- The query tokens: split the normalized query on whitespace, keep words of
length > 3 that are not stop words. -/
def queryWords (q : String) : List String :=
  (splitWS (normalize q)).filter
    (fun w => decide (3 < w.length ∧ w ∉ stopWords))

/-- The query tokens together with the synonyms of each token (a set in the
source; the deduplicated list has the same elements). -/
def expandedQueryWords (q : String) : List String :=
  let qw := queryWords q
  (qw ++ qw.flatMap synonyms).dedup

/-- The entry's question tokens used for keyword scoring: split on whitespace
and keep words of length > 3.  (The stop-word filter is NOT applied here.) -/
def questionWords (normalizedQuestion : String) : List String :=
  (splitWS normalizedQuestion).filter (fun w => decide (3 < w.length))

def substringBonus (q : String) (e : KnowledgeEntry) : Nat :=
  let nq := normalize q
  let nquestion := normalize e.question
  if strIncludes nquestion nq || strIncludes nq nquestion then 100 else 0

def categoryBonus (q : String) (e : KnowledgeEntry) : Nat :=
  let category := strLower (e.category.getD "")
  if category ≠ "" ∧ (expandedQueryWords q).any (fun w => strIncludes category w) then 50
  else 0

/-- Count of expanded query tokens exactly equal to a question token. -/
def matchCount (q : String) (e : KnowledgeEntry) : Nat :=
  let qws := questionWords (normalize e.question)
  ((expandedQueryWords q).filter (fun w => decide (w ∈ qws))).length

/-- Count of expanded query tokens in a substring relationship (either
direction) with some question token; exact matches are included. -/
def partialCount (q : String) (e : KnowledgeEntry) : Nat :=
  let qws := questionWords (normalize e.question)
  ((expandedQueryWords q).filter
    (fun w => qws.any (fun u => strIncludes u w || strIncludes w u))).length

/-- The keyword component of the score. -/
def keywordScore (q : String) (e : KnowledgeEntry) : Nat :=
  matchCount q e * 20 + partialCount q e * 5

def learnedBonus (e : KnowledgeEntry) : Nat :=
  if e.source = KnowledgeSource.learned then 10 else 0

/-- The score `searchKnowledge` computes for one entry. -/
def score (q : String) (e : KnowledgeEntry) : Nat :=
  substringBonus q e + categoryBonus q e + keywordScore q e + learnedBonus e

/-- The `(entry, score)` pairs with positive score, in store order
(`knowledge.map(...).filter(({score}) => score > 0)`). -/
def scoredEntries (q : String) : List KnowledgeEntry → List (KnowledgeEntry × Nat)
  | [] => []
  | e :: rest =>
      if 0 < score q e then (e, score q e) :: scoredEntries q rest
      else scoredEntries q rest

/-- The element a stable descending sort by score puts first: scanning left to
right, replace the current best only on a strictly greater score. -/
def bestOf (b : KnowledgeEntry × Nat) : List (KnowledgeEntry × Nat) → KnowledgeEntry × Nat
  | [] => b
  | p :: rest => bestOf (if b.2 < p.2 then p else b) rest

/-- Model of `searchKnowledge` over a knowledge snapshot: score every entry, drop
non-positive scores, and return the first entry of maximal score (JavaScript's
`sort` is stable, so `sort((a,b) => b.score - a.score)[0]` is the first
maximal-score element). -/
def searchKnowledge (kb : List KnowledgeEntry) (q : String) : Option KnowledgeEntry :=
  match scoredEntries q kb with
  | [] => none
  | p :: rest => some (bestOf p rest).1

/-! ## The spec's version of the keyword component

Stated from the spec's words, for comparison with `keywordScore`: question
tokens are filtered "the same way as the query tokens" (length > 3 AND not a
stop word), and the ×5 partial-match count excludes tokens already counted as
exact matches. -/

def questionWordsSpec (normalizedQuestion : String) : List String :=
  (splitWS normalizedQuestion).filter (fun w => decide (3 < w.length ∧ w ∉ stopWords))

def keywordScoreSpec (q : String) (e : KnowledgeEntry) : Nat :=
  let qws := questionWordsSpec (normalize e.question)
  let exact := ((expandedQueryWords q).filter (fun w => decide (w ∈ qws))).length
  let partial_ := ((expandedQueryWords q).filter
    (fun w => decide (w ∉ qws) && qws.any (fun u => strIncludes u w || strIncludes w u))).length
  exact * 20 + partial_ * 5

/-! ## Escalation lifecycle (src/database/store.ts, src/services/escalation.ts) -/

/-- A `Partial<HelpRequest>`: `none` means the key is absent from the update
object; for the optional fields of `HelpRequest`, `some v` carries the new
(optional) value. -/
structure HelpRequestUpdates where
  id : Option String
  customerPhone : Option String
  customerName : Option (Option String)
  question : Option String
  context : Option (Option String)
  status : Option HelpRequestStatus
  createdAt : Option Nat
  resolvedAt : Option (Option Nat)
  supervisorAnswer : Option (Option String)
  timeoutAt : Option Nat
deriving DecidableEq, Repr

/-- The empty update object. -/
def noUpdates : HelpRequestUpdates :=
  ⟨none, none, none, none, none, none, none, none, none, none⟩

/-- JavaScript's `{ ...request, ...updates }`: keys present in `updates`
overwrite the record's fields. -/
def applyUpdates (r : HelpRequest) (u : HelpRequestUpdates) : HelpRequest where
  id := u.id.getD r.id
  customerPhone := u.customerPhone.getD r.customerPhone
  customerName := u.customerName.getD r.customerName
  question := u.question.getD r.question
  context := u.context.getD r.context
  status := u.status.getD r.status
  createdAt := u.createdAt.getD r.createdAt
  resolvedAt := u.resolvedAt.getD r.resolvedAt
  supervisorAnswer := u.supervisorAnswer.getD r.supervisorAnswer
  timeoutAt := u.timeoutAt.getD r.timeoutAt

/-- Model of `getHelpRequest`: `requests.find(r => r.id === id) || null`. -/
def getHelpRequest (requests : List HelpRequest) (id : String) : Option HelpRequest :=
  requests.find? (fun r => r.id == id)

/-- Model of `updateHelpRequest`: find the index of the first record with the given id;
if absent return `null` and leave the collection as read; otherwise replace
that one record with the merged record and write the collection back.  Returns
the updated record (if any) and the stored collection after the call. -/
def updateHelpRequest : List HelpRequest → String → HelpRequestUpdates →
    Option HelpRequest × List HelpRequest
  | [], _, _ => (none, [])
  | r :: rest, id, u =>
      if r.id = id then
        (some (applyUpdates r u), applyUpdates r u :: rest)
      else
        match updateHelpRequest rest id u with
        | (res, rest') => (res, r :: rest')

/-- Model of `createHelpRequest` as invoked from `escalateToSupervisor`: the new request
is appended with `status = pending`, `createdAt = now`,
`timeoutAt = now + 1 hour` (3600000 ms), and a fresh id. -/
def escalateToSupervisor (requests : List HelpRequest)
    (customerPhone question : String) (customerName context : Option String)
    (now : Nat) (freshId : String) : HelpRequest × List HelpRequest :=
  let newRequest : HelpRequest :=
    { id := freshId
      customerPhone := customerPhone
      customerName := customerName
      question := question
      context := context
      status := HelpRequestStatus.pending
      createdAt := now
      resolvedAt := none
      supervisorAnswer := none
      timeoutAt := now + 3600000 }
  (newRequest, requests ++ [newRequest])

/-- The timeout sweep applied to one record: a pending request whose
`timeoutAt` has passed becomes `timeout`; every other record is untouched. -/
def sweepOne (now : Nat) (r : HelpRequest) : HelpRequest :=
  if r.status = HelpRequestStatus.pending ∧ r.timeoutAt < now then
    { r with status := HelpRequestStatus.timeout }
  else r

/-- Model of `getPendingHelpRequests`: sweep every record, persist the swept collection,
and return the records that are still pending.  The result is
`(pending list, stored collection after the call)`. -/
def getPendingHelpRequests (requests : List HelpRequest) (now : Nat) :
    List HelpRequest × List HelpRequest :=
  let swept := requests.map (sweepOne now)
  (swept.filter (fun r => r.status == HelpRequestStatus.pending), swept)

/-! ## Live-session directory (src/services/session-manager.ts)

The directory is a `Map` keyed by customer phone; we model it as a list with
pairwise-distinct phones.  Whether `session.say(message)` would throw is an
external fact about the transport, modelled as the `pushOk` flag of the
session entry. -/

structure ActiveSession where
  customerPhone : String
  roomName : String
  connectedAt : Nat
  pushOk : Bool
deriving DecidableEq, Repr

/-- Model of `sendMessageToCustomer`: no entry for the phone → `false`, directory
untouched; push throws → entry removed, `false`; push succeeds → `true`,
directory untouched. -/
def sendMessageToCustomer (dir : List ActiveSession) (customerPhone _message : String) :
    Bool × List ActiveSession :=
  match dir.find? (fun s => s.customerPhone == customerPhone) with
  | none => (false, dir)
  | some s =>
      if s.pushOk then (true, dir)
      else (false, dir.eraseP (fun t => t.customerPhone == customerPhone))

/-- The follow-up message sent to the customer after a resolution. -/
def followUpMessage (answer : String) : String :=
  "Hi! I got an answer to your question: " ++ answer

/-! ## The full store and the HTTP respond endpoint (supervisor UI server) -/

structure Store where
  requests : List HelpRequest
  knowledge : List KnowledgeEntry
  sessions : List ActiveSession
deriving DecidableEq, Repr

inductive RespondResult where
  /-- HTTP 400: answer missing. -/
  | badRequest
  /-- HTTP 404: id unknown. -/
  | notFound
  /-- HTTP 200: success, with the updated request. -/
  | ok (request : HelpRequest)
deriving DecidableEq, Repr

/-- The update object passed by the respond endpoint. -/
def respondUpdates (answer : String) (now : Nat) : HelpRequestUpdates :=
  { noUpdates with
      status := some HelpRequestStatus.resolved
      supervisorAnswer := some (some answer)
      resolvedAt := some (some now) }

/-- Model of `POST /api/help-requests/:id/respond`.  `answer = none` models a body
without the field; `!answer` in JavaScript is also true for the empty string.
On success the endpoint updates the request, appends one learned knowledge
entry, and follows up with the customer through the live-session directory. -/
def respond (st : Store) (id : String) (answer : Option String) (now : Nat)
    (freshId : String) : RespondResult × Store :=
  match answer with
  | none => (RespondResult.badRequest, st)
  | some a =>
      if a = "" then (RespondResult.badRequest, st)
      else
        match updateHelpRequest st.requests id (respondUpdates a now) with
        | (none, _) => (RespondResult.notFound, st)
        | (some updated, requests') =>
            let newEntry : KnowledgeEntry :=
              { id := freshId
                question := updated.question
                answer := a
                category := some "supervisor-learned"
                createdAt := now
                updatedAt := now
                source := KnowledgeSource.learned }
            let push := sendMessageToCustomer st.sessions updated.customerPhone
              (followUpMessage a)
            (RespondResult.ok updated,
             { requests := requests'
               knowledge := st.knowledge ++ [newEntry]
               sessions := push.2 })

/-! ## Resolution poller (ConsoleNotificationService.checkForSupervisorResponses) -/

/-- JavaScript truthiness of an optional string field. -/
def truthy : Option String → Bool
  | none => false
  | some s => s ≠ ""

/-- JavaScript's `request.supervisorAnswer && request.resolvedAt`. -/
def qualifies (r : HelpRequest) : Bool :=
  truthy r.supervisorAnswer && r.resolvedAt.isSome

/-- One iteration of the poller's loop body: for a qualifying request, notify
the customer (which may evict a dead session) and then mark the request
resolved; otherwise do nothing. -/
def tickStep (acc : Store × List (String × String)) (r : HelpRequest) :
    Store × List (String × String) :=
  if qualifies r then
    let msg := followUpMessage (r.supervisorAnswer.getD "")
    let push := sendMessageToCustomer acc.1.sessions r.customerPhone msg
    let upd := updateHelpRequest acc.1.requests r.id
      { noUpdates with status := some HelpRequestStatus.resolved }
    ({ requests := upd.2, knowledge := acc.1.knowledge, sessions := push.2 },
     acc.2 ++ [(r.customerPhone, msg)])
  else acc

/-- One poller tick: read the pending list (running the timeout sweep), then
process each pending request in order.  Returns the new store and the
customer notifications issued during the tick. -/
def tick (st : Store) (now : Nat) : Store × List (String × String) :=
  let read := getPendingHelpRequests st.requests now
  read.1.foldl tickStep
    ({ requests := read.2, knowledge := st.knowledge, sessions := st.sessions }, [])

/-- Count of expanded query tokens in a substring relationship with a question
token but not exactly equal to any question token. -/
def strictPartialCount (q : String) (e : KnowledgeEntry) : Nat :=
  let qws := questionWords (normalize e.question)
  ((expandedQueryWords q).filter
    (fun w => (qws.any (fun u => strIncludes u w || strIncludes w u))
      && !(decide (w ∈ qws)))).length

/-! ## Concrete records used as test inputs (seed data from src/database/seed.ts) -/

def entryHours : KnowledgeEntry :=
  { id := "kb_hours", question := "What are your business hours?",
    answer := "We are open Monday through Friday from 9 AM to 7 PM, and Saturday from 10 AM to 6 PM. We are closed on Sundays.",
    category := some "hours", createdAt := 0, updatedAt := 0,
    source := KnowledgeSource.initial }

def entryLocated : KnowledgeEntry :=
  { id := "kb_location", question := "Where are you located?",
    answer := "We are located at 123 Beauty Street, San Francisco, CA 94102.",
    category := some "location", createdAt := 0, updatedAt := 0,
    source := KnowledgeSource.initial }

/-- A request already in the terminal `timeout` state. -/
def reqT : HelpRequest :=
  { id := "req_1", customerPhone := "+1234567890", customerName := none,
    question := "Do you have parking?", context := none,
    status := HelpRequestStatus.timeout, createdAt := 0, resolvedAt := none,
    supervisorAnswer := none, timeoutAt := 3600000 }

def stT : Store := { requests := [reqT], knowledge := [], sessions := [] }

/-- A timed-out request that also carries an answer and a resolution time but
has never been flagged as delivered (its status is not `resolved`). -/
def reqTA : HelpRequest :=
  { reqT with resolvedAt := some 10, supervisorAnswer := some "Yes, free parking in the lot" }

def stTA : Store := { requests := [reqTA], knowledge := [], sessions := [] }

/-- A pending request whose answer fields are set, as the poller expects. -/
def reqPA : HelpRequest :=
  { id := "req_9", customerPhone := "+1234567890", customerName := none,
    question := "Do you have parking?", context := none,
    status := HelpRequestStatus.pending, createdAt := 0, resolvedAt := some 5,
    supervisorAnswer := some "Yes, free parking in the lot", timeoutAt := 3600000 }

def sessOk : ActiveSession :=
  { customerPhone := "+1234567890", roomName := "room-1", connectedAt := 0, pushOk := true }

def stW : Store := { requests := [reqPA], knowledge := [], sessions := [sessOk] }

/-! ## Helper lemmas -/

theorem prefixOf_self (l : List Char) : prefixOf l l = true := by
  induction l with
  | nil => rfl
  | cons a as ih => simp [prefixOf, ih]

theorem occursIn_self (l : List Char) : occursIn l l = true := by
  cases l with
  | nil => rfl
  | cons c rest => simp [occursIn, prefixOf_self]

theorem strIncludes_self (s : String) : strIncludes s s = true :=
  occursIn_self s.data

theorem occursIn_nil_pat (l : List Char) : occursIn [] l = true := by
  cases l with
  | nil => rfl
  | cons c rest => simp [occursIn, prefixOf]

theorem length_filter_split {α : Type} (p ex : α → Bool) (l : List α)
    (h : ∀ a ∈ l, ex a = true → p a = true) :
    (l.filter p).length
      = (l.filter ex).length + (l.filter (fun a => p a && !ex a)).length := by
  induction l with
  | nil => rfl
  | cons a rest ih =>
    have ih' := ih (fun x hx hex => h x (List.mem_cons_of_mem a hx) hex)
    by_cases hex : ex a = true
    · have hp : p a = true := h a (List.mem_cons_self a rest) hex
      simp [List.filter_cons, hp, hex, ih']
      omega
    · rw [Bool.not_eq_true] at hex
      by_cases hp : p a = true
      · simp [List.filter_cons, hp, hex, ih']
        omega
      · rw [Bool.not_eq_true] at hp
        simp [List.filter_cons, hp, hex, ih']

theorem updateHelpRequest_not_found (l : List HelpRequest) (id : String)
    (u : HelpRequestUpdates) (h : ∀ x ∈ l, x.id ≠ id) :
    updateHelpRequest l id u = (none, l) := by
  induction l with
  | nil => rfl
  | cons r rest ih =>
    have hr : r.id ≠ id := h r (List.mem_cons_self r rest)
    have ih' := ih (fun x hx => h x (List.mem_cons_of_mem r hx))
    simp [updateHelpRequest, hr, ih']

theorem updateHelpRequest_found_append (A : List HelpRequest) (r : HelpRequest)
    (B : List HelpRequest) (id : String) (u : HelpRequestUpdates)
    (hA : ∀ x ∈ A, x.id ≠ id) (hr : r.id = id) :
    updateHelpRequest (A ++ r :: B) id u
      = (some (applyUpdates r u), A ++ applyUpdates r u :: B) := by
  induction A with
  | nil => simp [updateHelpRequest, hr]
  | cons a A ih =>
    have ha : a.id ≠ id := hA a (List.mem_cons_self a A)
    have ih' := ih (fun x hx => hA x (List.mem_cons_of_mem a hx))
    simp [updateHelpRequest, ha, ih']

theorem fst_updateHelpRequest (l : List HelpRequest) (id : String)
    (u : HelpRequestUpdates) :
    (updateHelpRequest l id u).1
      = (getHelpRequest l id).map (fun r => applyUpdates r u) := by
  induction l with
  | nil => rfl
  | cons r rest ih =>
    by_cases h : r.id = id
    · simp [updateHelpRequest, getHelpRequest, List.find?_cons, h]
    · have hb : (r.id == id) = false := by simp [h]
      simp [updateHelpRequest, getHelpRequest, List.find?_cons, hb, h] at ih ⊢
      rw [← getHelpRequest]
      exact ih

theorem eraseP_phone_all_ne (dir : List ActiveSession) (phone : String)
    (hnd : (dir.map (fun s => s.customerPhone)).Nodup) :
    ∀ t ∈ dir.eraseP (fun t => t.customerPhone == phone), t.customerPhone ≠ phone := by
  induction dir with
  | nil => simp
  | cons d rest ih =>
    rw [List.map_cons, List.nodup_cons] at hnd
    by_cases hd : d.customerPhone = phone
    · rw [List.eraseP_cons_of_pos (by simp [hd])]
      intro t ht htp
      exact hnd.1 (List.mem_map.mpr ⟨t, ht, by rw [htp, hd]⟩)
    · rw [List.eraseP_cons_of_neg (by simp [hd])]
      intro t ht
      rcases List.mem_cons.mp ht with h | h
      · rw [h]; exact hd
      · exact ih hnd.2 t h

/-! ## Claim theorems -/

/-- C10: `updateHelpRequest` with an absent id returns `null` and leaves the
collection unchanged; with a present id it replaces exactly the first record
carrying that id (same length, same order, every other record untouched), and
fields not named in the update object keep their prior values. -/
theorem C10_updateHelpRequest_frame (l : List HelpRequest) (id : String)
    (u : HelpRequestUpdates) :
    ((∀ x ∈ l, x.id ≠ id) → updateHelpRequest l id u = (none, l)) ∧
    (∀ A r B, l = A ++ r :: B → (∀ x ∈ A, x.id ≠ id) → r.id = id →
        updateHelpRequest l id u = (some (applyUpdates r u), A ++ applyUpdates r u :: B)) ∧
    (∀ r : HelpRequest,
        (u.id = none → (applyUpdates r u).id = r.id) ∧
        (u.customerPhone = none → (applyUpdates r u).customerPhone = r.customerPhone) ∧
        (u.customerName = none → (applyUpdates r u).customerName = r.customerName) ∧
        (u.question = none → (applyUpdates r u).question = r.question) ∧
        (u.context = none → (applyUpdates r u).context = r.context) ∧
        (u.status = none → (applyUpdates r u).status = r.status) ∧
        (u.createdAt = none → (applyUpdates r u).createdAt = r.createdAt) ∧
        (u.resolvedAt = none → (applyUpdates r u).resolvedAt = r.resolvedAt) ∧
        (u.supervisorAnswer = none → (applyUpdates r u).supervisorAnswer = r.supervisorAnswer) ∧
        (u.timeoutAt = none → (applyUpdates r u).timeoutAt = r.timeoutAt)) := by
  refine ⟨fun h => updateHelpRequest_not_found l id u h, ?_, ?_⟩
  · intro A r B hl hA hr
    rw [hl]
    exact updateHelpRequest_found_append A r B id u hA hr
  · intro r
    refine ⟨?_, ?_, ?_, ?_, ?_, ?_, ?_, ?_, ?_, ?_⟩ <;>
      (intro h; simp [applyUpdates, h])

/-- Witness for C10 at a concrete collection: the single stored record with
id `req_1` is updated in place. -/
theorem C10_witness :
    updateHelpRequest [reqT] "req_1"
        { noUpdates with status := some HelpRequestStatus.resolved }
      = (some (applyUpdates reqT { noUpdates with status := some HelpRequestStatus.resolved }),
         [] ++ applyUpdates reqT { noUpdates with status := some HelpRequestStatus.resolved } :: []) :=
  (C10_updateHelpRequest_frame [reqT] "req_1"
      { noUpdates with status := some HelpRequestStatus.resolved }).2.1
    [] reqT [] rfl (by simp) (by decide)

/-- C9: the respond endpoint returns 400 with no side effects when the answer
is missing (or empty, which JavaScript's `!answer` also treats as missing),
404 with both collections unchanged when the id is unknown, and success with
the updated request otherwise. -/
theorem C9_respond_errors (st : Store) (id : String) (answer : Option String)
    (now : Nat) (fid : String) :
    ((answer = none ∨ answer = some "") →
        respond st id answer now fid = (RespondResult.badRequest, st)) ∧
    (∀ a, answer = some a → a ≠ "" → getHelpRequest st.requests id = none →
        respond st id answer now fid = (RespondResult.notFound, st)) ∧
    (∀ a r, answer = some a → a ≠ "" → getHelpRequest st.requests id = some r →
        (respond st id answer now fid).1
          = RespondResult.ok (applyUpdates r (respondUpdates a now))) := by
  refine ⟨?_, ?_, ?_⟩
  · rintro (rfl | rfl) <;> simp [respond]
  · rintro a rfl ha hfind
    have hupd : updateHelpRequest st.requests id (respondUpdates a now) = (none, st.requests) :=
      updateHelpRequest_not_found st.requests id (respondUpdates a now)
        (by
          intro x hx
          have := List.find?_eq_none.mp hfind x hx
          simpa using this)
    simp [respond, ha, hupd]
  · rintro a r rfl ha hfind
    rcases hu : updateHelpRequest st.requests id (respondUpdates a now) with ⟨res, l'⟩
    have hres : res = some (applyUpdates r (respondUpdates a now)) := by
      have h1 := fst_updateHelpRequest st.requests id (respondUpdates a now)
      rw [hu, hfind] at h1
      simpa using h1
    subst hres
    simp [respond, ha, hu]

/-- Witness for C9 at a concrete input: a missing answer yields 400 and the
store is returned unchanged. -/
theorem C9_witness :
    respond stT "req_1" none 0 "kb_x" = (RespondResult.badRequest, stT) :=
  (C9_respond_errors stT "req_1" none 0 "kb_x").1 (Or.inl rfl)

/-- C5: a successful resolution appends exactly one new knowledge entry, with
`source = learned`, `question` equal character-for-character to the stored
request's question, and `answer` equal to the supplied supervisor answer. -/
theorem C5_resolution_learns (st : Store) (id a : String) (now : Nat) (fid : String)
    (r : HelpRequest) (ha : a ≠ "") (hr : getHelpRequest st.requests id = some r) :
    (respond st id (some a) now fid).2.knowledge
      = st.knowledge ++
        [{ id := fid, question := r.question, answer := a,
           category := some "supervisor-learned", createdAt := now, updatedAt := now,
           source := KnowledgeSource.learned }] := by
  rcases hu : updateHelpRequest st.requests id (respondUpdates a now) with ⟨res, l'⟩
  have hres : res = some (applyUpdates r (respondUpdates a now)) := by
    have h1 := fst_updateHelpRequest st.requests id (respondUpdates a now)
    rw [hu, hr] at h1
    simpa using h1
  subst hres
  simp [respond, ha, hu]
  rfl

/-- Witness for C5 at a concrete input: resolving the stored request `req_1`
appends one learned entry copying its question. -/
theorem C5_witness :
    ("Yes" ≠ "" ∧ getHelpRequest stT.requests "req_1" = some reqT) ∧
    (respond stT "req_1" (some "Yes") 99 "kb_9").2.knowledge
      = stT.knowledge ++
        [{ id := "kb_9", question := reqT.question, answer := "Yes",
           category := some "supervisor-learned", createdAt := 99, updatedAt := 99,
           source := KnowledgeSource.learned }] :=
  ⟨⟨by decide, by decide⟩,
   C5_resolution_learns stT "req_1" "Yes" 99 "kb_9" reqT (by decide) (by decide)⟩

/-- C3 (amended): the timeout sweep never touches a request whose status is
not `pending`, so `resolved` and `timeout` are terminal for the sweep; the
respond endpoint, however, performs no status check and overwrites the status
of whatever record carries the id with `resolved`, so `timeout → resolved`
(and a redundant `resolved → resolved`) transitions do occur through it. -/
theorem C3_terminal_states :
    (∀ (now : Nat) (r : HelpRequest),
        r.status ≠ HelpRequestStatus.pending → sweepOne now r = r) ∧
    (∀ (st : Store) (A B : List HelpRequest) (r : HelpRequest) (a : String)
        (now : Nat) (fid : String),
        a ≠ "" → st.requests = A ++ r :: B → (∀ x ∈ A, x.id ≠ r.id) →
        (respond st r.id (some a) now fid).2.requests
          = A ++ { r with status := HelpRequestStatus.resolved,
                          resolvedAt := some now,
                          supervisorAnswer := some a } :: B) := by
  constructor
  · intro now r h
    unfold sweepOne
    rw [if_neg (fun hc => h hc.1)]
  · intro st A B r a now fid ha hl hA
    have hupd : updateHelpRequest st.requests r.id (respondUpdates a now)
        = (some (applyUpdates r (respondUpdates a now)),
           A ++ applyUpdates r (respondUpdates a now) :: B) := by
      rw [hl]
      exact updateHelpRequest_found_append A r B r.id (respondUpdates a now) hA rfl
    simp [respond, ha, hupd]
    rfl

/-- Counterexample for C3 as stated: responding to the already-timed-out
request `req_1` changes its status from `timeout` to `resolved`. -/
theorem C3_counterexample :
    stT.requests.map (fun r => r.status) = [HelpRequestStatus.timeout] ∧
    ((respond stT "req_1" (some "yes") 50 "kb_1").2.requests.map (fun r => r.status))
      = [HelpRequestStatus.resolved] := by
  decide

/-- Witness for C3 (amended) at a concrete input: the respond endpoint turns
the stored `timeout` request into a `resolved` one. -/
theorem C3_witness :
    (respond stT reqT.id (some "yes") 50 "kb_1").2.requests
      = [] ++ { reqT with status := HelpRequestStatus.resolved,
                          resolvedAt := some 50,
                          supervisorAnswer := some "yes" } :: [] :=
  C3_terminal_states.2 stT [] [] reqT "yes" 50 "kb_1" (by decide) rfl (by simp)

/-- C6: a freshly created escalation request carries `status = pending` and
`timeoutAt = createdAt + 1 hour`, and a pending-list read performed before the
hour has elapsed includes it. -/
theorem C6_create_roundtrip (requests : List HelpRequest)
    (phone question : String) (name ctx : Option String) (now : Nat)
    (fid : String) (now₂ : Nat) (h : now₂ < now + 3600000) :
    (escalateToSupervisor requests phone question name ctx now fid).1
        ∈ (getPendingHelpRequests
            (escalateToSupervisor requests phone question name ctx now fid).2 now₂).1 ∧
    (escalateToSupervisor requests phone question name ctx now fid).1.status
        = HelpRequestStatus.pending ∧
    (escalateToSupervisor requests phone question name ctx now fid).1.timeoutAt
        = (escalateToSupervisor requests phone question name ctx now fid).1.createdAt
            + 3600000 := by
  refine ⟨?_, rfl, rfl⟩
  unfold escalateToSupervisor getPendingHelpRequests
  simp only [List.map_append, List.map_cons, List.map_nil, List.filter_append]
  apply List.mem_append_right
  have hsweep : sweepOne now₂
      ({ id := fid, customerPhone := phone, customerName := name, question := question,
         context := ctx, status := HelpRequestStatus.pending, createdAt := now,
         resolvedAt := none, supervisorAnswer := none,
         timeoutAt := now + 3600000 } : HelpRequest)
      = { id := fid, customerPhone := phone, customerName := name, question := question,
          context := ctx, status := HelpRequestStatus.pending, createdAt := now,
          resolvedAt := none, supervisorAnswer := none,
          timeoutAt := now + 3600000 } := by
    unfold sweepOne
    rw [if_neg]
    rintro ⟨-, hlt⟩
    change now + 3600000 < now₂ at hlt
    omega
  rw [hsweep]
  simp

/-- Witness for C6 at a concrete input. -/
theorem C6_witness :
    (5 < 0 + 3600000) ∧
    ((escalateToSupervisor [] "+1" "Do you have parking?" none none 0 "req_1").1
        ∈ (getPendingHelpRequests
            (escalateToSupervisor [] "+1" "Do you have parking?" none none 0 "req_1").2 5).1 ∧
     (escalateToSupervisor [] "+1" "Do you have parking?" none none 0 "req_1").1.status
        = HelpRequestStatus.pending ∧
     (escalateToSupervisor [] "+1" "Do you have parking?" none none 0 "req_1").1.timeoutAt
        = (escalateToSupervisor [] "+1" "Do you have parking?" none none 0 "req_1").1.createdAt
            + 3600000) :=
  ⟨by decide, C6_create_roundtrip [] "+1" "Do you have parking?" none none 0 "req_1" 5 (by decide)⟩

/-- C8: the delivery notifier returns `delivered = false` without touching
the directory when no session exists; on a failed push it removes the asker's
session (afterwards no entry for that phone remains) and returns `false`; on
a successful push it returns `true` and the directory still contains the
entry. -/
theorem C8_notify_directory (dir : List ActiveSession) (phone msg : String)
    (hnd : (dir.map (fun s => s.customerPhone)).Nodup) :
    (dir.find? (fun s => s.customerPhone == phone) = none →
        sendMessageToCustomer dir phone msg = (false, dir)) ∧
    (∀ s, dir.find? (fun s => s.customerPhone == phone) = some s → s.pushOk = false →
        sendMessageToCustomer dir phone msg
            = (false, dir.eraseP (fun t => t.customerPhone == phone)) ∧
        ∀ t ∈ (sendMessageToCustomer dir phone msg).2, t.customerPhone ≠ phone) ∧
    (∀ s, dir.find? (fun s => s.customerPhone == phone) = some s → s.pushOk = true →
        sendMessageToCustomer dir phone msg = (true, dir) ∧
        s ∈ (sendMessageToCustomer dir phone msg).2) := by
  refine ⟨?_, ?_, ?_⟩
  · intro h
    simp [sendMessageToCustomer, h]
  · intro s hs hpush
    have heq : sendMessageToCustomer dir phone msg
        = (false, dir.eraseP (fun t => t.customerPhone == phone)) := by
      simp [sendMessageToCustomer, hs, hpush]
    refine ⟨heq, ?_⟩
    rw [heq]
    exact eraseP_phone_all_ne dir phone hnd
  · intro s hs hpush
    have heq : sendMessageToCustomer dir phone msg = (true, dir) := by
      simp [sendMessageToCustomer, hs, hpush]
    exact ⟨heq, by rw [heq]; exact List.mem_of_find?_eq_some hs⟩

/-- Witness for C8 at a concrete input: a healthy push returns `true` and
keeps the session registered. -/
theorem C8_witness :
    (([sessOk].map (fun s => s.customerPhone)).Nodup) ∧
    (sendMessageToCustomer [sessOk] "+1234567890" "hello" = (true, [sessOk]) ∧
     sessOk ∈ (sendMessageToCustomer [sessOk] "+1234567890" "hello").2) :=
  ⟨by decide,
   (C8_notify_directory [sessOk] "+1234567890" "hello" (by decide)).2.2 sessOk (by decide) rfl⟩

/-- C1 (amended): the score decomposes into the four bonus components plus
the keyword component; the keyword component is 20 × (count of expanded query
tokens exactly equal to a question token, where question tokens are filtered
ONLY by length > 3 — the stop-word filter is not applied to them) plus
5 × (count of expanded query tokens in a substring relationship with some
question token, WITHOUT excluding exact matches): every exact match is also
counted as a partial match, so it contributes 25 in total. -/
theorem C1_keyword_component (q : String) (e : KnowledgeEntry) :
    score q e = substringBonus q e + categoryBonus q e + keywordScore q e + learnedBonus e ∧
    keywordScore q e = matchCount q e * 20 + partialCount q e * 5 ∧
    partialCount q e = matchCount q e + strictPartialCount q e := by
  refine ⟨rfl, rfl, ?_⟩
  simp only [partialCount, matchCount, strictPartialCount]
  apply length_filter_split
  intro w _ hex
  have hw : w ∈ questionWords (normalize e.question) := of_decide_eq_true hex
  exact List.any_eq_true.mpr ⟨w, hw, by simp [strIncludes_self]⟩

/-- Counterexample for C1 as stated: for the query "location" against the
seed entry "Where are you located?", the code's keyword component is 25
("where" is an expanded token via the synonym table and survives in the
question's tokens because question tokens are not stop-word-filtered, and it
is counted both as an exact and as a partial match), while the claim's
formula — stop-word-filtered question tokens and exact matches excluded from
the partial count — yields 0. -/
theorem C1_counterexample :
    keywordScore "location" entryLocated = 25 ∧
    keywordScoreSpec "location" entryLocated = 0 ∧
    keywordScore "location" entryLocated ≠ keywordScoreSpec "location" entryLocated := by
  decide

/-- Every entry receives the +100 substring bonus against the empty query,
because the empty string is a substring of every question. -/
theorem score_pos_of_empty_query (e : KnowledgeEntry) : 0 < score "" e := by
  have h : substringBonus "" e = 100 := by
    have h2 : strIncludes (normalize e.question) (normalize "") = true :=
      occursIn_nil_pat (normalize e.question).data
    simp [substringBonus, h2]
  unfold score
  omega

/-- C7 (amended): `resolve` on the empty query returns `none` exactly when
the knowledge snapshot is empty.  For a non-empty snapshot the empty
normalized query is a substring of every entry's question, so every entry
scores at least 100 and some entry is returned. -/
theorem C7_empty_query (kb : List KnowledgeEntry) :
    searchKnowledge kb "" = none ↔ kb = [] := by
  constructor
  · intro h
    cases kb with
    | nil => rfl
    | cons e rest =>
      exfalso
      unfold searchKnowledge scoredEntries at h
      rw [if_pos (score_pos_of_empty_query e)] at h
      simp at h
  · rintro rfl
    rfl

/-- Counterexample for C7 as stated: against the seeded business-hours entry,
the empty query returns that entry, not `none`. -/
theorem C7_counterexample :
    searchKnowledge [entryHours] "" = some entryHours := by
  decide

theorem bestOf_spec (l : List (KnowledgeEntry × Nat)) (b : KnowledgeEntry × Nat) :
    ∃ l₁ l₂, b :: l = l₁ ++ (bestOf b l) :: l₂ ∧
      (∀ x ∈ l₁, x.2 < (bestOf b l).2) ∧
      (∀ x ∈ l₂, x.2 ≤ (bestOf b l).2) ∧
      b.2 ≤ (bestOf b l).2 := by
  induction l generalizing b with
  | nil =>
    exact ⟨[], [], rfl, by simp, by simp, le_refl _⟩
  | cons p rest ih =>
    have hstep : bestOf b (p :: rest) = bestOf (if b.2 < p.2 then p else b) rest := rfl
    by_cases hlt : b.2 < p.2
    · rcases ih p with ⟨l₁, l₂, heq, h₁, h₂, hb⟩
      rw [hstep, if_pos hlt]
      refine ⟨b :: l₁, l₂, ?_, ?_, h₂, ?_⟩
      · rw [List.cons_append, ← heq]
      · intro x hx
        rcases List.mem_cons.mp hx with rfl | hx'
        · exact lt_of_lt_of_le hlt hb
        · exact h₁ x hx'
      · exact le_of_lt (lt_of_lt_of_le hlt hb)
    · rcases ih b with ⟨l₁, l₂, heq, h₁, h₂, hb⟩
      rw [hstep, if_neg hlt]
      push_neg at hlt
      cases l₁ with
      | nil =>
        simp only [List.nil_append] at heq
        injection heq with hbb hrest
        refine ⟨[], p :: rest, ?_, by simp, ?_, hb⟩
        · rw [List.nil_append, ← hbb]
        · intro x hx
          rcases List.mem_cons.mp hx with rfl | hx'
          · rw [← hbb]; exact hlt
          · exact h₂ x (hrest ▸ hx')
      | cons c t =>
        rw [List.cons_append] at heq
        injection heq with hbc hrest
        subst hbc
        refine ⟨b :: p :: t, l₂, ?_, ?_, h₂, hb⟩
        · conv_lhs => rw [hrest]
          simp
        · intro x hx
          have hbbest : b.2 < (bestOf b rest).2 := h₁ b (List.mem_cons_self _ _)
          rcases List.mem_cons.mp hx with rfl | hx'
          · exact hbbest
          rcases List.mem_cons.mp hx' with rfl | hx''
          · exact lt_of_le_of_lt hlt hbbest
          · exact h₁ x (List.mem_cons_of_mem _ hx'')

theorem scoredEntries_mem (q : String) (kb : List KnowledgeEntry) :
    ∀ p ∈ scoredEntries q kb, p.1 ∈ kb ∧ p.2 = score q p.1 ∧ 0 < p.2 := by
  induction kb with
  | nil => simp [scoredEntries]
  | cons e rest ih =>
    intro p hp
    by_cases hs : 0 < score q e
    · rw [scoredEntries, if_pos hs] at hp
      rcases List.mem_cons.mp hp with rfl | hp'
      · exact ⟨List.mem_cons_self _ _, rfl, hs⟩
      · rcases ih p hp' with ⟨h1, h2, h3⟩
        exact ⟨List.mem_cons_of_mem _ h1, h2, h3⟩
    · rw [scoredEntries, if_neg hs] at hp
      rcases ih p hp with ⟨h1, h2, h3⟩
      exact ⟨List.mem_cons_of_mem _ h1, h2, h3⟩

theorem scoredEntries_eq_nil (q : String) (kb : List KnowledgeEntry) :
    scoredEntries q kb = [] ↔ ∀ e ∈ kb, score q e = 0 := by
  induction kb with
  | nil => simp [scoredEntries]
  | cons e rest ih =>
    by_cases hs : 0 < score q e
    · rw [scoredEntries, if_pos hs]
      constructor
      · intro h
        cases h
      · intro h
        exact absurd (h e (List.mem_cons_self _ _)) (by omega)
    · rw [scoredEntries, if_neg hs, ih]
      constructor
      · intro h x hx
        rcases List.mem_cons.mp hx with rfl | hx'
        · omega
        · exact h x hx'
      · intro h x hx
        exact h x (List.mem_cons_of_mem _ hx)

theorem mem_scoredEntries_of (q : String) (kb : List KnowledgeEntry) (e : KnowledgeEntry)
    (he : e ∈ kb) (hs : 0 < score q e) : (e, score q e) ∈ scoredEntries q kb := by
  induction kb with
  | nil => cases he
  | cons a rest ih =>
    rcases List.mem_cons.mp he with rfl | he'
    · rw [scoredEntries, if_pos hs]
      exact List.mem_cons_self _ _
    · by_cases ha : 0 < score q a
      · rw [scoredEntries, if_pos ha]
        exact List.mem_cons_of_mem _ (ih he')
      · rw [scoredEntries, if_neg ha]
        exact ih he'

theorem scoredEntries_split (q : String) (kb : List KnowledgeEntry) :
    ∀ l₁ p l₂, scoredEntries q kb = l₁ ++ p :: l₂ →
      ∃ k₁ k₂, kb = k₁ ++ p.1 :: k₂ ∧ scoredEntries q k₁ = l₁ ∧ scoredEntries q k₂ = l₂ := by
  induction kb with
  | nil =>
    intro l₁ p l₂ h
    rw [scoredEntries] at h
    cases l₁ <;> simp at h
  | cons e rest ih =>
    intro l₁ p l₂ h
    by_cases hs : 0 < score q e
    · rw [scoredEntries, if_pos hs] at h
      cases l₁ with
      | nil =>
        simp only [List.nil_append] at h
        injection h with h1 h2
        exact ⟨[], rest, by rw [← h1]; rfl, rfl, h2⟩
      | cons x t =>
        rw [List.cons_append] at h
        injection h with hx hrest
        rcases ih t p l₂ hrest with ⟨k₁, k₂, hkb, hk₁, hk₂⟩
        refine ⟨e :: k₁, k₂, by rw [hkb]; rfl, ?_, hk₂⟩
        rw [scoredEntries, if_pos hs, hk₁, hx]
    · rw [scoredEntries, if_neg hs] at h
      rcases ih l₁ p l₂ h with ⟨k₁, k₂, hkb, hk₁, hk₂⟩
      refine ⟨e :: k₁, k₂, by rw [hkb]; rfl, ?_, hk₂⟩
      rw [scoredEntries, if_neg hs, hk₁]

/-- C2: `resolve` returns `none` exactly when no entry scores above zero, and
otherwise returns an entry of positive score such that every earlier stored
entry scores strictly less and every later stored entry scores at most as
much — the first-encountered entry wins ties. -/
theorem C2_resolve_selection (kb : List KnowledgeEntry) (q : String) :
    (searchKnowledge kb q = none ↔ ∀ e ∈ kb, score q e = 0) ∧
    (∀ e, searchKnowledge kb q = some e →
        0 < score q e ∧
        ∃ k₁ k₂, kb = k₁ ++ e :: k₂ ∧
          (∀ x ∈ k₁, score q x < score q e) ∧
          (∀ x ∈ k₂, score q x ≤ score q e)) := by
  constructor
  · rw [← scoredEntries_eq_nil q kb]
    unfold searchKnowledge
    cases hse : scoredEntries q kb with
    | nil => simp
    | cons p rest => simp
  · intro e hsome
    unfold searchKnowledge at hsome
    cases hse : scoredEntries q kb with
    | nil =>
      rw [hse] at hsome
      simp at hsome
    | cons p rest =>
      rw [hse] at hsome
      simp only [Option.some.injEq] at hsome
      rcases bestOf_spec rest p with ⟨l₁, l₂, heq, h₁, h₂, _⟩
      have hsplit : scoredEntries q kb = l₁ ++ bestOf p rest :: l₂ := by
        rw [hse, heq]
      rcases scoredEntries_split q kb l₁ (bestOf p rest) l₂ hsplit with ⟨k₁, k₂, hkb, hk₁, hk₂⟩
      have hbmem : bestOf p rest ∈ scoredEntries q kb := by
        rw [hsplit]
        exact List.mem_append_right _ (List.mem_cons_self _ _)
      rcases scoredEntries_mem q kb (bestOf p rest) hbmem with ⟨_, hbscore, hbpos⟩
      subst hsome
      refine ⟨by rw [← hbscore]; exact hbpos, k₁, k₂, hkb, ?_, ?_⟩
      · intro x hx
        rcases Nat.eq_zero_or_pos (score q x) with hz | hpos
        · rw [hz, ← hbscore]
          exact hbpos
        · have hmem : (x, score q x) ∈ l₁ := by
            rw [← hk₁]
            exact mem_scoredEntries_of q k₁ x hx hpos
          have := h₁ (x, score q x) hmem
          rw [← hbscore]
          exact this
      · intro x hx
        rcases Nat.eq_zero_or_pos (score q x) with hz | hpos
        · rw [hz]
          exact Nat.zero_le _
        · have hmem : (x, score q x) ∈ l₂ := by
            rw [← hk₂]
            exact mem_scoredEntries_of q k₂ x hx hpos
          have := h₂ (x, score q x) hmem
          rw [← hbscore]
          exact this

theorem applyUpdates_status_only (r : HelpRequest) (s : HelpRequestStatus) :
    applyUpdates r { noUpdates with status := some s } = { r with status := s } := rfl

theorem sweepOne_id (now : Nat) (r : HelpRequest) : (sweepOne now r).id = r.id := by
  unfold sweepOne
  split <;> rfl

theorem tick_fold (todo : List HelpRequest) :
    ∀ (R : List HelpRequest) (kb : List KnowledgeEntry) (sess : List ActiveSession)
      (n₀ : List (String × String)),
      (R.map (fun r => r.id)).Nodup → todo.Sublist R →
      ((todo.foldl tickStep ({ requests := R, knowledge := kb, sessions := sess }, n₀)).1.requests
          = R.map (fun r => if r ∈ todo ∧ qualifies r = true
              then { r with status := HelpRequestStatus.resolved } else r)) ∧
      ((todo.foldl tickStep ({ requests := R, knowledge := kb, sessions := sess }, n₀)).2
          = n₀ ++ (todo.filter qualifies).map
              (fun r => (r.customerPhone, followUpMessage (r.supervisorAnswer.getD "")))) := by
  induction todo with
  | nil =>
    intro R kb sess n₀ hnd hsub
    constructor
    · simp
    · simp
  | cons t rest ih =>
    intro R kb sess n₀ hnd hsub
    by_cases hq : qualifies t = true
    · -- the head request is processed: notified, then marked resolved
      have ht : t ∈ R := hsub.subset (List.mem_cons_self _ _)
      rcases List.append_of_mem ht with ⟨A, B, hR⟩
      subst hR
      have hndm : ((A.map (fun r => r.id)) ++ t.id :: (B.map (fun r => r.id))).Nodup := by
        simpa using hnd
      have hmid := List.nodup_middle.mp hndm
      rw [List.nodup_cons] at hmid
      have hAid : ∀ x ∈ A, x.id ≠ t.id := by
        intro x hx hxe
        exact hmid.1 (List.mem_append_left _ (List.mem_map.mpr ⟨x, hx, hxe⟩))
      have hBid : ∀ x ∈ B, x.id ≠ t.id := by
        intro x hx hxe
        exact hmid.1 (List.mem_append_right _ (List.mem_map.mpr ⟨x, hx, hxe⟩))
      have hdisj : ∀ x ∈ A, x ∉ B := by
        intro x hxA hxB
        exact (List.disjoint_of_nodup_append hmid.2)
          (List.mem_map.mpr ⟨x, hxA, rfl⟩) (List.mem_map.mpr ⟨x, hxB, rfl⟩)
      have hupd := updateHelpRequest_found_append A t B t.id
        { noUpdates with status := some HelpRequestStatus.resolved } hAid rfl
      have htickstep : tickStep
            ({ requests := A ++ t :: B, knowledge := kb, sessions := sess }, n₀) t
          = ({ requests := A ++ { t with status := HelpRequestStatus.resolved } :: B,
               knowledge := kb,
               sessions := (sendMessageToCustomer sess t.customerPhone
                 (followUpMessage (t.supervisorAnswer.getD ""))).2 },
             n₀ ++ [(t.customerPhone, followUpMessage (t.supervisorAnswer.getD ""))]) := by
        simp [tickStep, hq, hupd, applyUpdates_status_only]
      rw [List.foldl_cons, htickstep]
      have hrestB : rest.Sublist B := by
        rcases List.sublist_append_iff.mp hsub with ⟨r₁, r₂, hsplit, hr₁, hr₂⟩
        cases r₁ with
        | nil =>
          rw [List.nil_append] at hsplit
          rw [← hsplit] at hr₂
          exact List.cons_sublist_cons.mp hr₂
        | cons x r₁x =>
          rw [List.cons_append] at hsplit
          injection hsplit with hx hrest2
          subst hx
          exact absurd rfl (hAid t (hr₁.subset (List.mem_cons_self _ _)))
      have hnd' : ((A ++ { t with status := HelpRequestStatus.resolved } :: B).map
          (fun r => r.id)).Nodup := by
        simpa using hndm
      have hrest' : rest.Sublist (A ++ { t with status := HelpRequestStatus.resolved } :: B) :=
        (hrestB.trans (List.sublist_cons_self _ _)).trans (List.sublist_append_right A _)
      rcases ih (A ++ { t with status := HelpRequestStatus.resolved } :: B) kb
          ((sendMessageToCustomer sess t.customerPhone
            (followUpMessage (t.supervisorAnswer.getD ""))).2)
          (n₀ ++ [(t.customerPhone, followUpMessage (t.supervisorAnswer.getD ""))])
          hnd' hrest' with ⟨ihr, ihn⟩
      constructor
      · rw [ihr]
        rw [List.map_append, List.map_append, List.map_cons, List.map_cons]
        congr 1
        · apply List.map_congr_left
          intro x hxA
          have hxrest : x ∉ rest := fun hxr => hdisj x hxA (hrestB.subset hxr)
          have hxt : x ≠ t := fun h => hAid x hxA (by rw [h])
          simp [hxrest, hxt, List.mem_cons]
        · congr 1
          · have ht'rest : ({ t with status := HelpRequestStatus.resolved } : HelpRequest)
                ∉ rest := by
              intro h
              exact hBid _ (hrestB.subset h) rfl
            have hcond : (t ∈ t :: rest ∧ qualifies t = true) :=
              ⟨List.mem_cons_self _ _, hq⟩
            rw [if_pos hcond, if_neg (fun hc => ht'rest hc.1)]
          · apply List.map_congr_left
            intro x hxB
            have hxt : x ≠ t := fun h => hBid x hxB (by rw [h])
            simp [List.mem_cons, hxt]
      · rw [ihn]
        rw [List.filter_cons_of_pos hq, List.map_cons, List.append_assoc]
        rfl
    · -- the head request is skipped
      have htickstep : tickStep
            ({ requests := R, knowledge := kb, sessions := sess }, n₀) t
          = ({ requests := R, knowledge := kb, sessions := sess }, n₀) := by
        simp [tickStep, hq]
      rw [List.foldl_cons, htickstep]
      have hrest : rest.Sublist R := (List.sublist_cons_self t rest).trans hsub
      rcases ih R kb sess n₀ hnd hrest with ⟨ihr, ihn⟩
      constructor
      · rw [ihr]
        apply List.map_congr_left
        intro r hr
        by_cases hrt : r = t
        · subst hrt
          simp [hq]
        · simp [List.mem_cons, hrt]
      · rw [ihn, List.filter_cons_of_neg (by simp [hq])]

/-- C4 (amended): on every tick the poller scans only the requests that are
still `pending` after the timeout sweep — not all requests; for each pending
request whose `supervisorAnswer` is a non-empty string and whose `resolvedAt`
is set, it notifies the customer and then sets the request's status to
`resolved` (the settle mark) regardless of the delivered outcome; every other
request is left exactly as the sweep left it. -/
theorem C4_poller_tick (st : Store) (now : Nat)
    (hnd : (st.requests.map (fun r => r.id)).Nodup) :
    (tick st now).1.requests
      = (st.requests.map (sweepOne now)).map
          (fun r => if r.status = HelpRequestStatus.pending ∧ qualifies r = true
              then { r with status := HelpRequestStatus.resolved } else r) ∧
    (tick st now).2
      = ((st.requests.map (sweepOne now)).filter
          (fun r => (r.status == HelpRequestStatus.pending) && qualifies r)).map
          (fun r => (r.customerPhone, followUpMessage (r.supervisorAnswer.getD ""))) := by
  have hndswept : ((st.requests.map (sweepOne now)).map (fun r => r.id)).Nodup := by
    rw [List.map_map]
    have hcomp : ((fun r : HelpRequest => r.id) ∘ sweepOne now) = fun r : HelpRequest => r.id := by
      funext r
      exact sweepOne_id now r
    rw [hcomp]
    exact hnd
  have hsub : ((st.requests.map (sweepOne now)).filter
      (fun r => r.status == HelpRequestStatus.pending)).Sublist
        (st.requests.map (sweepOne now)) := List.filter_sublist _
  rcases tick_fold ((st.requests.map (sweepOne now)).filter
      (fun r => r.status == HelpRequestStatus.pending))
      (st.requests.map (sweepOne now)) st.knowledge st.sessions [] hndswept hsub
    with ⟨h1, h2⟩
  have htick : tick st now
      = ((st.requests.map (sweepOne now)).filter
          (fun r => r.status == HelpRequestStatus.pending)).foldl tickStep
          ({ requests := st.requests.map (sweepOne now), knowledge := st.knowledge,
             sessions := st.sessions }, []) := rfl
  rw [htick]
  constructor
  · rw [h1]
    apply List.map_congr_left
    intro r hr
    by_cases hp : r.status = HelpRequestStatus.pending
    · have hrp : r ∈ (st.requests.map (sweepOne now)).filter
          (fun r => r.status == HelpRequestStatus.pending) :=
        List.mem_filter.mpr ⟨hr, by simp [hp]⟩
      simp [hrp, hp]
    · have hrp : r ∉ (st.requests.map (sweepOne now)).filter
          (fun r => r.status == HelpRequestStatus.pending) := by
        intro hmem
        exact hp (by simpa using (List.mem_filter.mp hmem).2)
      simp [hrp, hp]
  · rw [h2, List.nil_append, List.filter_filter]
    congr 1
    apply List.filter_congr
    intro a _
    rw [Bool.and_comm]

/-- Counterexample for C4 as stated: `req_1` has `resolvedAt` set and has not
been flagged as delivered (its status is `timeout`, not `resolved`), yet a
poller tick issues no notification and leaves the store unchanged, because
the poller only scans requests that are pending after the sweep. -/
theorem C4_counterexample :
    stTA.requests.map (fun r => (r.status, r.resolvedAt.isSome))
      = [(HelpRequestStatus.timeout, true)] ∧
    (tick stTA 50).2 = [] ∧
    (tick stTA 50).1.requests = stTA.requests := by
  decide

/-- Witness for C4 (amended) at a concrete input: a pending request with an
answer is notified and settled on the tick. -/
theorem C4_witness :
    ((stW.requests.map (fun r => r.id)).Nodup) ∧
    ((tick stW 50).1.requests
        = (stW.requests.map (sweepOne 50)).map
            (fun r => if r.status = HelpRequestStatus.pending ∧ qualifies r = true
                then { r with status := HelpRequestStatus.resolved } else r) ∧
     (tick stW 50).2
        = ((stW.requests.map (sweepOne 50)).filter
            (fun r => (r.status == HelpRequestStatus.pending) && qualifies r)).map
            (fun r => (r.customerPhone, followUpMessage (r.supervisorAnswer.getD "")))) :=
  ⟨by decide, C4_poller_tick stW 50 (by decide)⟩

/-- Witness for C2 at a concrete input: the empty query against the seeded
hours entry selects that entry with positive score. -/
theorem C2_witness :
    0 < score "" entryHours ∧
    ∃ k₁ k₂, [entryHours] = k₁ ++ entryHours :: k₂ ∧
      (∀ x ∈ k₁, score "" x < score "" entryHours) ∧
      (∀ x ∈ k₂, score "" x ≤ score "" entryHours) :=
  (C2_resolve_selection [entryHours] "").2 entryHours (by decide)

end HITL
